import Mathlib

/-!
Verification of the yt2text streaming transcription/formatting pipeline
(`src/transcriber.py`) against its natural-language specification.

Python strings are modelled as lists of Unicode code points (`List Char`),
matching Python's `str` semantics where indexing, slicing and `len` operate
on code points.  Python string primitives used by the pipeline
(`str.strip`, `str.split`, `str.rfind`, `int(...)`, `in`, `str.replace`)
are given structurally recursive models so that concrete instances are
kernel-evaluable.  Timestamps (Python floats used only through subtraction
and ordering) are modelled as rationals.
-/

namespace Yt2Text

/-- A Python string, as its sequence of code points. -/
abbrev Str := List Char

/-- Model of Python `str.strip()`: remove whitespace from both ends.
(Python strips all Unicode whitespace; the pipeline's data only involves
ASCII whitespace, for which `Char.isWhitespace` agrees.) -/
def pyStrip (s : Str) : Str :=
  ((s.dropWhile Char.isWhitespace).reverse.dropWhile Char.isWhitespace).reverse

/-- Model of a transcription segment as produced by the speech engine:
`segment.text`, `segment.start`, `segment.end` (`end` is a Lean keyword,
rendered here as `stop`). -/
structure Segment where
  text : Str
  start : ℚ
  stop : ℚ
deriving DecidableEq

/-- A pipeline paragraph: `{"raw": str, "formatted": str|None}` of
`transcribe_and_format`, together with its index (the position in the
`paragraphs` list, which is also the key of `pending_futures`). -/
structure Paragraph where
  index : Nat
  raw : Str
  formatted : Option Str
deriving DecidableEq

/-- Segmenter state of the main loop of `transcribe_and_format`:
the finished `paragraphs` list, the accumulator `current_parts`, and
`prev_end`. -/
structure SegState where
  paragraphs : List Paragraph
  currentParts : List Str
  prevEnd : ℚ
deriving DecidableEq

/-- `current_len = sum(len(p) for p in current_parts)` (transcriber.py:359). -/
def currentLen (parts : List Str) : Nat := (parts.map List.length).sum

/-- `_submit_paragraph` (transcriber.py:332-346), restricted to its effect on
the segmenter state: if the accumulator is empty do nothing, else append a new
paragraph whose `raw` is the concatenation of `current_parts`, whose index is the current
paragraph count, and whose `formatted` starts absent, then clear the
accumulator. -/
def submitParagraph (st : SegState) : SegState :=
  if st.currentParts = [] then st
  else
    { paragraphs :=
        st.paragraphs ++ [⟨st.paragraphs.length, st.currentParts.flatten, none⟩]
      currentParts := []
      prevEnd := st.prevEnd }

/-- One iteration of the main transcription loop (transcriber.py:353-374):
strip the segment text and skip the segment if empty; otherwise compute
`gap = segment.start - prev_end`, flush via `_submit_paragraph` when the
accumulator is non-empty and (`gap >= GAP_THRESHOLD` or
`current_len >= MAX_PARAGRAPH_CHARS`), then append the stripped text to the
accumulator and set `prev_end = segment.end`. -/
def segStep (gapThreshold : ℚ) (maxParagraphChars : Nat)
    (st : SegState) (seg : Segment) : SegState :=
  let text := pyStrip seg.text
  if text = [] then st
  else
    let gap := seg.start - st.prevEnd
    let st1 :=
      if st.currentParts ≠ [] ∧
          (gap ≥ gapThreshold ∨ currentLen st.currentParts ≥ maxParagraphChars)
      then submitParagraph st else st
    { paragraphs := st1.paragraphs
      currentParts := st1.currentParts ++ [text]
      prevEnd := seg.stop }

/-- The whole segmentation pass: fold the loop body over the segment stream
starting from the empty state, then the trailing `_submit_paragraph()`
(transcriber.py:377) flushes any remaining accumulator. -/
def runSegmenter (gapThreshold : ℚ) (maxParagraphChars : Nat)
    (segs : List Segment) : SegState :=
  submitParagraph (segs.foldl (segStep gapThreshold maxParagraphChars) ⟨[], [], 0⟩)

theorem submitParagraph_of_ne (st : SegState) (h : st.currentParts ≠ []) :
    submitParagraph st =
      { paragraphs :=
          st.paragraphs ++ [⟨st.paragraphs.length, st.currentParts.flatten, none⟩]
        currentParts := []
        prevEnd := st.prevEnd } := by
  simp [submitParagraph, h]

theorem submitParagraph_of_eq (st : SegState) (h : st.currentParts = []) :
    submitParagraph st = st := by
  simp [submitParagraph, h]

/-- C1 (counterexample): the claim as stated quantifies over *every* incoming
segment and asserts that the segment's text is always appended and `lastEnd`
is always updated to `segment.end`; but the loop first strips the segment text
and skips whitespace-only segments entirely (transcriber.py:354-356), leaving
the accumulator and `prev_end` untouched.  At the whitespace segment
`⟨" ", 5, 7⟩` the state is unchanged, while the claim predicts
`lastEnd = 7 ≠ 0`. -/
theorem C1_counterexample :
    segStep 1 500 ⟨[], [], 0⟩ ⟨[' '], 5, 7⟩ = ⟨[], [], 0⟩ ∧ (7 : ℚ) ≠ 0 :=
  ⟨rfl, by norm_num⟩

/-- C1 (amended): for every incoming segment whose stripped text is non-empty,
with `gap = segment.start − lastEnd`: if the accumulator is non-empty and
(`gap ≥ gapThreshold` or the accumulated length `≥ maxParagraphChars`), the
accumulator is flushed as a completed paragraph before the text is appended;
the stripped text is then appended to the (possibly just-cleared) accumulator
and `lastEnd` becomes `segment.end`.  At end-of-stream a remaining non-empty
accumulator is flushed as the final paragraph (whitespace-only segments are
skipped entirely). -/
theorem C1_segmenter (gapThreshold : ℚ) (maxParagraphChars : Nat)
    (st : SegState) (seg : Segment) (htext : pyStrip seg.text ≠ []) :
    ((st.currentParts ≠ [] ∧
        (seg.start - st.prevEnd ≥ gapThreshold ∨
          currentLen st.currentParts ≥ maxParagraphChars)) →
      segStep gapThreshold maxParagraphChars st seg =
        { paragraphs :=
            st.paragraphs ++ [⟨st.paragraphs.length, st.currentParts.flatten, none⟩]
          currentParts := [pyStrip seg.text]
          prevEnd := seg.stop }) ∧
    (¬ (st.currentParts ≠ [] ∧
        (seg.start - st.prevEnd ≥ gapThreshold ∨
          currentLen st.currentParts ≥ maxParagraphChars)) →
      segStep gapThreshold maxParagraphChars st seg =
        { paragraphs := st.paragraphs
          currentParts := st.currentParts ++ [pyStrip seg.text]
          prevEnd := seg.stop }) ∧
    (∀ segs : List Segment,
      (runSegmenter gapThreshold maxParagraphChars segs).paragraphs =
        (let final := segs.foldl (segStep gapThreshold maxParagraphChars) ⟨[], [], 0⟩
         if final.currentParts = [] then final.paragraphs
         else final.paragraphs ++
           [⟨final.paragraphs.length, final.currentParts.flatten, none⟩])) := by
  refine ⟨fun hflush => ?_, fun hnoflush => ?_, fun segs => ?_⟩
  · simp only [segStep, htext, if_neg htext]
    rw [if_pos hflush, submitParagraph_of_ne st hflush.1]
    simp
  · simp only [segStep, htext, if_neg htext]
    rw [if_neg hnoflush]
    simp
  · simp only [runSegmenter, submitParagraph]
    split <;> simp_all

/-- Witness for C1 at a concrete input: the segment `⟨"a", 2, 3⟩` arriving at
state `⟨[], ["x"], 0⟩` with `gapThreshold = 1`, `maxParagraphChars = 500`. -/
theorem C1_segmenter_witness :
    ((SegState.currentParts ⟨[], [['x']], 0⟩ ≠ [] ∧
        ((2 : ℚ) - SegState.prevEnd ⟨[], [['x']], 0⟩ ≥ 1 ∨
          currentLen (SegState.currentParts ⟨[], [['x']], 0⟩) ≥ 500)) →
      segStep 1 500 ⟨[], [['x']], 0⟩ ⟨['a'], 2, 3⟩ =
        { paragraphs := [] ++ [⟨(List.length ([] : List Paragraph)), [['x']].flatten, none⟩]
          currentParts := [pyStrip ['a']]
          prevEnd := 3 }) ∧
    (¬ (SegState.currentParts ⟨[], [['x']], 0⟩ ≠ [] ∧
        ((2 : ℚ) - SegState.prevEnd ⟨[], [['x']], 0⟩ ≥ 1 ∨
          currentLen (SegState.currentParts ⟨[], [['x']], 0⟩) ≥ 500)) →
      segStep 1 500 ⟨[], [['x']], 0⟩ ⟨['a'], 2, 3⟩ =
        { paragraphs := []
          currentParts := [['x']] ++ [pyStrip ['a']]
          prevEnd := 3 }) ∧
    (∀ segs : List Segment,
      (runSegmenter 1 500 segs).paragraphs =
        (let final := segs.foldl (segStep 1 500) ⟨[], [], 0⟩
         if final.currentParts = [] then final.paragraphs
         else final.paragraphs ++
           [⟨final.paragraphs.length, final.currentParts.flatten, none⟩])) :=
  C1_segmenter 1 500 ⟨[], [['x']], 0⟩ ⟨['a'], 2, 3⟩ (by decide)

/-! ## Document Assembler (`_build_content`, transcriber.py:305-314) -/

/-- One rendered paragraph body:
`p["formatted"] if p["formatted"] else p["raw"]` (transcriber.py:311).
Python truthiness: both `None` and the empty string fall back to `raw`. -/
def renderPara (p : Paragraph) : Str :=
  match p.formatted with
  | some s => if s = [] then p.raw else s
  | none => p.raw

/-- The `parts` list built by the `for i, p in enumerate(paragraphs)` loop of
`_build_content`: the `## `-heading for index `i` when `i in chapter_headers`,
immediately followed by the rendered paragraph body. -/
def buildParts (paragraphs : List Paragraph)
    (chapterHeaders : Nat → Option Str) : List Str :=
  paragraphs.enum.flatMap fun ip =>
    match chapterHeaders ip.1 with
    | some h => ["## ".data ++ h, renderPara ip.2]
    | none => [renderPara ip.2]

/-- `_build_content` (transcriber.py:305-314): the title as top-level heading,
then the paragraph parts, then — when `current_parts` is non-empty — its
concatenation as the unheaded tail, all joined by blank lines. -/
def buildContent (title : Str) (paragraphs : List Paragraph)
    (chapterHeaders : Nat → Option Str) (currentParts : List Str) : Str :=
  let parts := buildParts paragraphs chapterHeaders ++
    (if currentParts = [] then [] else [currentParts.flatten])
  "# ".data ++ title ++ "\n\n".data ++ List.intercalate "\n\n".data parts

/-- The rendering rule in the words of claim C2 (as amended), written as a
direct recursion over the paragraph list with an explicit index counter:
paragraphs strictly by index ascending, the heading for index `i` immediately
before paragraph `i` whenever mapped, each paragraph rendering its formatted
text when present *and non-empty*, otherwise its raw text. -/
def specBlocks (chapterHeaders : Nat → Option Str) :
    Nat → List Paragraph → List Str
  | _, [] => []
  | i, p :: ps =>
    (match chapterHeaders i with
     | some h => ["## ".data ++ h]
     | none => []) ++
    ((match p.formatted with
      | some s => if s = [] then p.raw else s
      | none => p.raw) :: specBlocks chapterHeaders (i + 1) ps)

/-- The assembled document in the words of claim C2 (as amended): the title as
the top-level heading, the index-ordered blocks of `specBlocks`, and the
concatenated accumulator appended last, unheaded, when the accumulator is
non-empty. -/
def assembleSpec (title : Str) (paragraphs : List Paragraph)
    (chapterHeaders : Nat → Option Str) (tailParts : List Str) : Str :=
  "# ".data ++ title ++ "\n\n".data ++
    List.intercalate "\n\n".data
      (specBlocks chapterHeaders 0 paragraphs ++
        (if tailParts = [] then [] else [tailParts.flatten]))

theorem buildParts_eq_specBlocks (paragraphs : List Paragraph)
    (chapterHeaders : Nat → Option Str) :
    buildParts paragraphs chapterHeaders = specBlocks chapterHeaders 0 paragraphs := by
  have key : ∀ (ps : List Paragraph) (k : Nat),
      (ps.enumFrom k).flatMap (fun ip =>
        match chapterHeaders ip.1 with
        | some h => ["## ".data ++ h, renderPara ip.2]
        | none => [renderPara ip.2]) = specBlocks chapterHeaders k ps := by
    intro ps
    induction ps with
    | nil => intro k; rfl
    | cons p ps ih =>
      intro k
      rw [List.enumFrom_cons, List.flatMap_cons, ih (k + 1)]
      cases h : chapterHeaders k <;> simp [specBlocks, renderPara, h]
  exact key paragraphs 0

/-- C2 (counterexample): the claim as stated says a paragraph renders its
formatted text whenever that field is present; but `_build_content` uses
Python truthiness (`p["formatted"] if p["formatted"] else p["raw"]`,
transcriber.py:311), so a present-but-empty formatted string falls back to the
raw text.  With one paragraph `{raw := "raw", formatted := some ""}` the claim
predicts the document `"# t\n\n"` while the code produces `"# t\n\nraw"`. -/
theorem C2_counterexample :
    buildContent "t".data [⟨0, "raw".data, some []⟩] (fun _ => none) [] =
      "# t\n\nraw".data ∧
    (Paragraph.formatted ⟨0, "raw".data, some []⟩ ≠ none ∧
      "# t\n\nraw".data ≠ "# t\n\n".data) :=
  ⟨by decide, by decide, by decide⟩

/-- C2 (amended): the assembled document renders the title as the top-level
heading, then the paragraphs strictly by index ascending, with the heading for
index `i` immediately before paragraph `i` whenever `i` is in the
chapter-header map; each paragraph renders its formatted text if present and
non-empty, otherwise its raw text; and the unflushed tail (the accumulator's
concatenation), when the accumulator is non-empty, is appended last with no
heading. -/
theorem C2_assembler (title : Str) (paragraphs : List Paragraph)
    (chapterHeaders : Nat → Option Str) (currentParts : List Str) :
    buildContent title paragraphs chapterHeaders currentParts =
      assembleSpec title paragraphs chapterHeaders currentParts := by
  unfold buildContent assembleSpec
  rw [buildParts_eq_specBlocks]

/-- C3: if every formatting call failed (every paragraph's `formatted` field is
still absent, hence also no structure headings), the assembled document is
still produced and equals the title heading followed by the raw paragraph
texts joined by blank lines, in index order — no raw text is lost or
reordered. -/
theorem C3_degradation (title : Str) (paragraphs : List Paragraph)
    (hall : ∀ p ∈ paragraphs, p.formatted = none) :
    buildContent title paragraphs (fun _ => none) [] =
      "# ".data ++ title ++ "\n\n".data ++
        List.intercalate "\n\n".data (paragraphs.map Paragraph.raw) := by
  rw [buildContent, buildParts_eq_specBlocks]
  have key : ∀ (ps : List Paragraph), (∀ p ∈ ps, p.formatted = none) →
      ∀ k, specBlocks (fun _ => none) k ps = ps.map Paragraph.raw := by
    intro ps
    induction ps with
    | nil => intro _ _; rfl
    | cons p ps ih =>
      intro h k
      have hp : p.formatted = none := h p (List.mem_cons_self p ps)
      simp [specBlocks, hp, ih (fun q hq => h q (List.mem_cons_of_mem p hq))]
  simp [key paragraphs hall 0]

/-- Witness for C3: two raw-only paragraphs assemble to exactly their raw
texts under the title. -/
theorem C3_degradation_witness :
    buildContent "t".data [⟨0, "one".data, none⟩, ⟨1, "two".data, none⟩]
        (fun _ => none) [] =
      "# ".data ++ "t".data ++ "\n\n".data ++
        List.intercalate "\n\n".data
          ([⟨0, "one".data, none⟩, ⟨1, "two".data, none⟩].map Paragraph.raw) :=
  C3_degradation "t".data [⟨0, "one".data, none⟩, ⟨1, "two".data, none⟩]
    (by decide)

/-! ## Applying formatting completions (`_check_futures`, transcriber.py:316-330) -/

/-- `paragraphs[idx]["formatted"] = value`: set the `formatted` field of the
paragraph at position `idx`, leaving every other paragraph untouched. -/
def setFormatted : List Paragraph → Nat → Str → List Paragraph
  | [], _, _ => []
  | p :: ps, 0, v => { p with formatted := some v } :: ps
  | p :: ps, n + 1, v => p :: setFormatted ps n v

/-- Observing one completed formatting future (`_check_futures`):
a successful result (`some v`) sets `formatted` at its index; a failure
(`none`) is caught, only logged, and leaves the paragraph list unchanged. -/
def applyCompletion (ps : List Paragraph) (c : Nat × Option Str) : List Paragraph :=
  match c.2 with
  | some v => setFormatted ps c.1 v
  | none => ps

/-- Observing a sequence of completions in arrival order. -/
def applyCompletions (ps : List Paragraph) (cs : List (Nat × Option Str)) :
    List Paragraph :=
  cs.foldl applyCompletion ps

theorem setFormatted_comm (ps : List Paragraph) (i j : Nat) (v w : Str)
    (hij : i ≠ j) :
    setFormatted (setFormatted ps i v) j w =
      setFormatted (setFormatted ps j w) i v := by
  induction ps generalizing i j with
  | nil => rfl
  | cons p ps ih =>
    match i, j with
    | 0, 0 => exact absurd rfl hij
    | 0, n + 1 => rfl
    | m + 1, 0 => rfl
    | m + 1, n + 1 =>
      simp only [setFormatted]
      rw [ih m n (by omega)]

theorem applyCompletion_comm (ps : List Paragraph)
    (c d : Nat × Option Str) (hcd : c.1 ≠ d.1) :
    applyCompletion (applyCompletion ps c) d =
      applyCompletion (applyCompletion ps d) c := by
  rcases c with ⟨i, _ | v⟩ <;> rcases d with ⟨j, _ | w⟩ <;>
    simp [applyCompletion]
  exact setFormatted_comm ps i j v w hcd

theorem applyCompletions_perm (ps : List Paragraph)
    {cs cs' : List (Nat × Option Str)} (hperm : cs.Perm cs')
    (hdistinct : cs.Pairwise (fun a b => a.1 ≠ b.1)) :
    applyCompletions ps cs = applyCompletions ps cs' := by
  induction hperm generalizing ps with
  | nil => rfl
  | cons x _ ih =>
    exact ih (applyCompletion ps x) (List.Pairwise.sublist (List.sublist_cons_self x _) hdistinct)
  | swap x y l =>
    have hxy : y.1 ≠ x.1 := (List.pairwise_cons.1 hdistinct).1 x (List.mem_cons_self x l)
    simp only [applyCompletions, List.foldl_cons]
    rw [applyCompletion_comm ps y x hxy]
  | trans p₁ p₂ ih₁ ih₂ =>
    have h₂ := (p₁.pairwise_iff (fun h => Ne.symm h)).1 hdistinct
    exact (ih₁ ps hdistinct).trans (ih₂ ps h₂)

/-- C4: for a fixed set of per-paragraph formatting results keyed by distinct
indices, every arrival order of those completions yields the identical
assembled document — applying results at distinct indices commutes, and the
assembler renders by index, never by completion time. -/
theorem C4_order_invariance (title : Str) (paragraphs : List Paragraph)
    (chapterHeaders : Nat → Option Str) (currentParts : List Str)
    (cs cs' : List (Nat × Option Str)) (hperm : cs.Perm cs')
    (hdistinct : cs.Pairwise (fun a b => a.1 ≠ b.1)) :
    buildContent title (applyCompletions paragraphs cs) chapterHeaders currentParts =
      buildContent title (applyCompletions paragraphs cs') chapterHeaders currentParts := by
  rw [applyCompletions_perm paragraphs hperm hdistinct]

/-- Witness for C4: the completions `(0, ok "A")` and `(1, failure)` observed
in either order assemble to the same document. -/
theorem C4_order_invariance_witness :
    buildContent "t".data
        (applyCompletions [⟨0, "a".data, none⟩, ⟨1, "b".data, none⟩]
          [(0, some "A".data), (1, none)]) (fun _ => none) [] =
      buildContent "t".data
        (applyCompletions [⟨0, "a".data, none⟩, ⟨1, "b".data, none⟩]
          [(1, none), (0, some "A".data)]) (fun _ => none) [] :=
  C4_order_invariance "t".data [⟨0, "a".data, none⟩, ⟨1, "b".data, none⟩]
    (fun _ => none) [] [(0, some "A".data), (1, none)]
    [(1, none), (0, some "A".data)]
    (List.Perm.swap (1, none) (0, some "A".data) [])
    (by decide)

theorem setFormatted_getElem? (ps : List Paragraph) (i j : Nat) (v : Str) :
    (setFormatted ps i v)[j]? =
      if j = i then (ps[j]?).map (fun p => { p with formatted := some v })
      else ps[j]? := by
  induction ps generalizing i j with
  | nil => simp [setFormatted]
  | cons p ps ih =>
    match i, j with
    | 0, 0 => simp [setFormatted]
    | 0, n + 1 => simp [setFormatted]
    | m + 1, 0 => simp [setFormatted]
    | m + 1, n + 1 => simp [setFormatted, ih m n]

theorem setFormatted_length (ps : List Paragraph) (i : Nat) (v : Str) :
    (setFormatted ps i v).length = ps.length := by
  induction ps generalizing i with
  | nil => rfl
  | cons p ps ih =>
    match i with
    | 0 => rfl
    | m + 1 => simp [setFormatted, ih m]

/-! ## Retry Coordinator (transcriber.py:400-419) -/

/-- The post-drain retry pass: collect `failed_indices` — the positions whose
`formatted` is still `None` — and if any exist, take the single 15-second
cooldown and retry each failed paragraph exactly once, setting `formatted` on
success and leaving the paragraph untouched when the retry raises again
(the exception is caught and logged).  `attempt idx` is the outcome of the
one retry call for paragraph `idx`.  The returned `Bool` records whether the
cooldown-and-retry block ran at all. -/
def retryCoordinator (ps : List Paragraph) (attempt : Nat → Option Str) :
    List Paragraph × Bool :=
  let failedIndices := (List.range ps.length).filter
    (fun i => decide ((ps[i]?).bind Paragraph.formatted = none))
  if failedIndices = [] then (ps, false)
  else
    (failedIndices.foldl
      (fun acc idx =>
        match attempt idx with
        | some v => setFormatted acc idx v
        | none => acc) ps,
      true)

theorem retryFold_getElem?_not_mem (attempt : Nat → Option Str)
    (is : List Nat) (ps : List Paragraph) (j : Nat) (hj : j ∉ is) :
    (is.foldl (fun acc idx =>
        match attempt idx with
        | some v => setFormatted acc idx v
        | none => acc) ps)[j]? = ps[j]? := by
  induction is generalizing ps with
  | nil => rfl
  | cons i is ih =>
    have hji : j ≠ i := fun h => hj (h ▸ List.mem_cons_self i is)
    have hj' : j ∉ is := fun h => hj (List.mem_cons_of_mem i h)
    simp only [List.foldl_cons]
    cases attempt i with
    | none => exact ih ps hj'
    | some v =>
      rw [ih (setFormatted ps i v) hj', setFormatted_getElem?, if_neg hji]

theorem retryFold_getElem?_mem (attempt : Nat → Option Str)
    (is : List Nat) (ps : List Paragraph) (j : Nat)
    (hnd : is.Nodup) (hj : j ∈ is) :
    (is.foldl (fun acc idx =>
        match attempt idx with
        | some v => setFormatted acc idx v
        | none => acc) ps)[j]? =
      (ps[j]?).map (fun p =>
        match attempt j with
        | some v => { p with formatted := some v }
        | none => p) := by
  induction is generalizing ps with
  | nil => exact absurd hj (List.not_mem_nil j)
  | cons i is ih =>
    rcases List.mem_cons.1 hj with rfl | hmem
    · have hnotin : j ∉ is := (List.nodup_cons.1 hnd).1
      simp only [List.foldl_cons]
      cases h : attempt j with
      | none =>
        rw [retryFold_getElem?_not_mem attempt is ps j hnotin]
        cases ps[j]? <;> rfl
      | some v =>
        rw [retryFold_getElem?_not_mem attempt is _ j hnotin,
          setFormatted_getElem?, if_pos rfl]
    · have hji : j ≠ i := fun h =>
        (List.nodup_cons.1 hnd).1 (h ▸ hmem)
      simp only [List.foldl_cons]
      cases attempt i with
      | none => exact ih ps (List.nodup_cons.1 hnd).2 hmem
      | some v =>
        rw [ih (setFormatted ps i v) (List.nodup_cons.1 hnd).2 hmem,
          setFormatted_getElem?, if_neg hji]


theorem retryCoordinator_of_empty (ps : List Paragraph) (attempt : Nat → Option Str)
    (h : (List.range ps.length).filter
      (fun i => decide ((ps[i]?).bind Paragraph.formatted = none)) = []) :
    retryCoordinator ps attempt = (ps, false) := by
  simp only [retryCoordinator]
  rw [if_pos h]

theorem retryCoordinator_of_ne (ps : List Paragraph) (attempt : Nat → Option Str)
    (h : (List.range ps.length).filter
      (fun i => decide ((ps[i]?).bind Paragraph.formatted = none)) ≠ []) :
    retryCoordinator ps attempt =
      (((List.range ps.length).filter
          (fun i => decide ((ps[i]?).bind Paragraph.formatted = none))).foldl
        (fun acc idx =>
          match attempt idx with
          | some v => setFormatted acc idx v
          | none => acc) ps,
        true) := by
  simp only [retryCoordinator]
  rw [if_neg h]

theorem retryFold_length (attempt : Nat → Option Str)
    (is : List Nat) (ps : List Paragraph) :
    (is.foldl (fun acc idx =>
        match attempt idx with
        | some v => setFormatted acc idx v
        | none => acc) ps).length = ps.length := by
  induction is generalizing ps with
  | nil => rfl
  | cons i is ih =>
    simp only [List.foldl_cons]
    cases attempt i with
    | none => exact ih ps
    | some v => rw [ih (setFormatted ps i v), setFormatted_length]

/-- C6: after the initially-submitted work is drained, the retry coordinator
takes the cooldown exactly when some paragraph's `formatted` is still absent;
it retries each such paragraph exactly once, setting `formatted` on success
and leaving it absent on repeated failure; already-formatted paragraphs are
untouched and the list's length is preserved, so a failed retry never aborts
the pipeline or affects other paragraphs. -/
theorem C6_retry_coordinator (ps : List Paragraph) (attempt : Nat → Option Str) :
    ((retryCoordinator ps attempt).2 = true ↔ ∃ p ∈ ps, p.formatted = none) ∧
    ((retryCoordinator ps attempt).1.length = ps.length) ∧
    (∀ (j : Nat) (p : Paragraph), ps[j]? = some p →
      (retryCoordinator ps attempt).1[j]? =
        some (if p.formatted = none then
          (match attempt j with
           | some v => { p with formatted := some v }
           | none => p)
          else p)) := by
  have hchar : ∀ i, i ∈ (List.range ps.length).filter
      (fun i => decide ((ps[i]?).bind Paragraph.formatted = none)) ↔
      (i < ps.length ∧ (ps[i]?).bind Paragraph.formatted = none) := by
    intro i
    simp [List.mem_filter, List.mem_range]
  by_cases hempty : (List.range ps.length).filter
      (fun i => decide ((ps[i]?).bind Paragraph.formatted = none)) = []
  · have hnofail : ∀ (j : Nat) (p : Paragraph), ps[j]? = some p →
        p.formatted ≠ none := by
      intro j p hjp hform
      have hjlt : j < ps.length := (List.getElem?_eq_some_iff.1 hjp).1
      have hmem : j ∈ (List.range ps.length).filter
          (fun i => decide ((ps[i]?).bind Paragraph.formatted = none)) :=
        (hchar j).2 ⟨hjlt, by rw [hjp]; simpa using hform⟩
      rw [hempty] at hmem
      exact List.not_mem_nil j hmem
    rw [retryCoordinator_of_empty ps attempt hempty]
    refine ⟨?_, rfl, ?_⟩
    · constructor
      · intro h; exact absurd h (by simp)
      · rintro ⟨p, hp, hform⟩
        obtain ⟨j, hjp⟩ := List.getElem?_of_mem hp
        exact absurd hform (hnofail j p hjp)
    · intro j p hjp
      rw [if_neg (hnofail j p hjp), hjp]
  · have hnd : ((List.range ps.length).filter
        (fun i => decide ((ps[i]?).bind Paragraph.formatted = none))).Nodup :=
      (List.nodup_range _).filter _
    rw [retryCoordinator_of_ne ps attempt hempty]
    refine ⟨?_, retryFold_length attempt _ ps, ?_⟩
    · constructor
      · intro _
        obtain ⟨i, hi⟩ := List.exists_mem_of_ne_nil _ hempty
        obtain ⟨hilt, hform⟩ := (hchar i).1 hi
        obtain ⟨p, hp⟩ : ∃ p, ps[i]? = some p := by
          rcases h : ps[i]? with _ | p
          · exact absurd (List.getElem?_eq_none_iff.1 h) (by omega)
          · exact ⟨p, rfl⟩
        refine ⟨p, List.getElem?_mem hp, ?_⟩
        rw [hp] at hform
        simpa using hform
      · intro _; rfl
    · intro j p hjp
      by_cases hform : p.formatted = none
      · have hjlt : j < ps.length := (List.getElem?_eq_some_iff.1 hjp).1
        have hjmem : j ∈ (List.range ps.length).filter
            (fun i => decide ((ps[i]?).bind Paragraph.formatted = none)) :=
          (hchar j).2 ⟨hjlt, by rw [hjp]; simpa using hform⟩
        rw [show (((List.range ps.length).filter
            (fun i => decide ((ps[i]?).bind Paragraph.formatted = none))).foldl
            (fun acc idx =>
              match attempt idx with
              | some v => setFormatted acc idx v
              | none => acc) ps,
            (true : Bool)).1[j]? = _ from
          retryFold_getElem?_mem attempt _ ps j hnd hjmem, hjp, if_pos hform]
        cases attempt j <;> simp
      · have hjnot : j ∉ (List.range ps.length).filter
            (fun i => decide ((ps[i]?).bind Paragraph.formatted = none)) := by
          intro hmem
          obtain ⟨_, h⟩ := (hchar j).1 hmem
          rw [hjp] at h
          exact hform (by simpa using h)
        rw [show (((List.range ps.length).filter
            (fun i => decide ((ps[i]?).bind Paragraph.formatted = none))).foldl
            (fun acc idx =>
              match attempt idx with
              | some v => setFormatted acc idx v
              | none => acc) ps,
            (true : Bool)).1[j]? = _ from
          retryFold_getElem?_not_mem attempt _ ps j hjnot, hjp, if_neg hform]

/-- Witness for C6: one failed and one already-formatted paragraph, retried
with an attempt that succeeds at index 0. -/
theorem C6_retry_coordinator_witness :
    ((retryCoordinator [⟨0, "a".data, none⟩, ⟨1, "b".data, some "B".data⟩]
        (fun _ => some "A".data)).2 = true ↔
      ∃ p ∈ [(⟨0, "a".data, none⟩ : Paragraph), ⟨1, "b".data, some "B".data⟩],
        Paragraph.formatted p = none) ∧
    ((retryCoordinator [⟨0, "a".data, none⟩, ⟨1, "b".data, some "B".data⟩]
        (fun _ => some "A".data)).1.length =
      [(⟨0, "a".data, none⟩ : Paragraph), ⟨1, "b".data, some "B".data⟩].length) ∧
    (∀ (j : Nat) (p : Paragraph),
      [(⟨0, "a".data, none⟩ : Paragraph), ⟨1, "b".data, some "B".data⟩][j]? = some p →
      (retryCoordinator [⟨0, "a".data, none⟩, ⟨1, "b".data, some "B".data⟩]
          (fun _ => some "A".data)).1[j]? =
        some (if p.formatted = none then
          (match (some "A".data : Option Str) with
           | some v => { p with formatted := some v }
           | none => p)
          else p)) :=
  C6_retry_coordinator [⟨0, "a".data, none⟩, ⟨1, "b".data, some "B".data⟩]
    (fun _ => some "A".data)

/-! ## Pipeline operations on the paragraph list (claim C5)

The orchestrator of `transcribe_and_format` mutates the paragraph list in
exactly three ways: `_submit_paragraph` appends `{"raw": raw, "formatted":
None}` under the index `len(paragraphs)` and registers that index in
`pending_futures` (transcriber.py:332-346); an observed completion sets
`formatted` at its index and deletes its pending entry (`_check_futures` and
the drain loop, transcriber.py:316-330 and 387-396); the retry pass sets
`formatted` at an index only when it is still `None` (transcriber.py:400-419).
-/

/-- One orchestrator operation on the paragraph list. -/
inductive PipelineOp where
  | submit (raw : Str)
  | complete (idx : Nat) (result : Option Str)
  | retryOne (idx : Nat) (result : Option Str)
deriving DecidableEq

/-- The orchestrator-owned state: the paragraph list and the keys of
`pending_futures`. -/
structure PipeState where
  paragraphs : List Paragraph
  pending : List Nat
deriving DecidableEq

/-- Apply one operation.  A completion only fires while its index is pending
and removes that entry exactly once when observed; a retry only touches a
paragraph whose `formatted` is still absent (the retry loop runs over
`failed_indices`); a failed result (`none`) never modifies the list. -/
def applyOp (st : PipeState) : PipelineOp → PipeState
  | .submit raw =>
      ⟨st.paragraphs ++ [⟨st.paragraphs.length, raw, none⟩],
        st.pending ++ [st.paragraphs.length]⟩
  | .complete idx r =>
      if idx ∈ st.pending then
        ⟨applyCompletion st.paragraphs (idx, r), st.pending.erase idx⟩
      else st
  | .retryOne idx r =>
      if (st.paragraphs[idx]?).bind Paragraph.formatted = none then
        match r with
        | some v => ⟨setFormatted st.paragraphs idx v, st.pending⟩
        | none => st
      else st

/-- Run a sequence of operations from the initial empty state. -/
def runOps (ops : List PipelineOp) : PipeState := ops.foldl applyOp ⟨[], []⟩

/-- Structural invariant of the orchestrator state: every paragraph's `index`
equals its position, the pending keys are distinct, and every pending key is
in range. -/
def GoodState (st : PipeState) : Prop :=
  (∀ (k : Nat) (p : Paragraph), st.paragraphs[k]? = some p → p.index = k) ∧
  st.pending.Nodup ∧
  (∀ i ∈ st.pending, i < st.paragraphs.length)

theorem applyOp_submit (st : PipeState) (raw : Str) :
    applyOp st (.submit raw) =
      ⟨st.paragraphs ++ [⟨st.paragraphs.length, raw, none⟩],
        st.pending ++ [st.paragraphs.length]⟩ := rfl

theorem applyOp_complete_pending (st : PipeState) (idx : Nat) (r : Option Str)
    (h : idx ∈ st.pending) :
    applyOp st (.complete idx r) =
      ⟨applyCompletion st.paragraphs (idx, r), st.pending.erase idx⟩ := by
  simp only [applyOp]
  rw [if_pos h]

theorem applyOp_complete_not_pending (st : PipeState) (idx : Nat)
    (r : Option Str) (h : idx ∉ st.pending) :
    applyOp st (.complete idx r) = st := by
  simp only [applyOp]
  rw [if_neg h]

theorem applyOp_retry_success (st : PipeState) (idx : Nat) (v : Str)
    (h : (st.paragraphs[idx]?).bind Paragraph.formatted = none) :
    applyOp st (.retryOne idx (some v)) =
      ⟨setFormatted st.paragraphs idx v, st.pending⟩ := by
  simp only [applyOp]
  rw [if_pos h]

theorem applyOp_retry_fail (st : PipeState) (idx : Nat)
    (h : (st.paragraphs[idx]?).bind Paragraph.formatted = none) :
    applyOp st (.retryOne idx none) = st := by
  simp only [applyOp]
  rw [if_pos h]

theorem applyOp_retry_formatted (st : PipeState) (idx : Nat) (r : Option Str)
    (h : ¬ (st.paragraphs[idx]?).bind Paragraph.formatted = none) :
    applyOp st (.retryOne idx r) = st := by
  simp only [applyOp]
  rw [if_neg h]

theorem setFormatted_index_preserved (ps : List Paragraph) (i : Nat) (v : Str)
    (hidx : ∀ (k : Nat) (p : Paragraph), ps[k]? = some p → p.index = k) :
    ∀ (k : Nat) (p : Paragraph), (setFormatted ps i v)[k]? = some p → p.index = k := by
  intro k p hk
  rw [setFormatted_getElem?] at hk
  by_cases hki : k = i
  · rw [if_pos hki] at hk
    rcases hpk : ps[k]? with _ | q
    · rw [hpk] at hk
      cases hk
    · rw [hpk] at hk
      cases hk
      exact hidx k q hpk
  · rw [if_neg hki] at hk
    exact hidx k p hk

theorem goodState_applyOp (st : PipeState) (op : PipelineOp)
    (h : GoodState st) : GoodState (applyOp st op) := by
  obtain ⟨hidx, hnd, hbound⟩ := h
  cases op with
  | submit raw =>
    rw [applyOp_submit]
    refine ⟨?_, ?_, ?_⟩
    · intro k p hk
      rcases lt_trichotomy k st.paragraphs.length with hlt | heq | hgt
      · rw [List.getElem?_append_left hlt] at hk
        exact hidx k p hk
      · subst heq
        rw [List.getElem?_concat_length] at hk
        cases hk
        rfl
      · rw [List.getElem?_eq_none_iff.2 (by simp; omega)] at hk
        cases hk
    · refine List.Nodup.append hnd (List.nodup_singleton _) ?_
      intro i hi hmem
      rw [List.mem_singleton] at hmem
      exact absurd (hbound i hi) (by omega)
    · intro i hi
      rcases List.mem_append.1 hi with hmem | hmem
      · have := hbound i hmem
        simp only [List.length_append, List.length_singleton]
        omega
      · rw [List.mem_singleton] at hmem
        subst hmem
        simp
  | complete idx r =>
    by_cases hp : idx ∈ st.pending
    · rw [applyOp_complete_pending st idx r hp]
      refine ⟨?_, hnd.erase idx, ?_⟩
      · cases r with
        | none => exact hidx
        | some v => exact setFormatted_index_preserved st.paragraphs idx v hidx
      · intro i hi
        have hmem := List.mem_of_mem_erase hi
        have := hbound i hmem
        cases r with
        | none => exact this
        | some v => simpa [applyCompletion, setFormatted_length] using this
    · rw [applyOp_complete_not_pending st idx r hp]
      exact ⟨hidx, hnd, hbound⟩
  | retryOne idx r =>
    by_cases hg : (st.paragraphs[idx]?).bind Paragraph.formatted = none
    · cases r with
      | none =>
        rw [applyOp_retry_fail st idx hg]
        exact ⟨hidx, hnd, hbound⟩
      | some v =>
        rw [applyOp_retry_success st idx v hg]
        refine ⟨setFormatted_index_preserved st.paragraphs idx v hidx, hnd, ?_⟩
        intro i hi
        have := hbound i hi
        simpa [setFormatted_length] using this
    · rw [applyOp_retry_formatted st idx r hg]
      exact ⟨hidx, hnd, hbound⟩

theorem goodState_init : GoodState ⟨[], []⟩ := by
  unfold GoodState
  refine ⟨?_, List.nodup_nil, ?_⟩
  · intro k p hk
    simp at hk
  · intro i hi
    exact absurd hi (List.not_mem_nil i)

theorem runOps_goodState (ops : List PipelineOp) : GoodState (runOps ops) := by
  have key : ∀ (l : List PipelineOp) (st : PipeState),
      GoodState st → GoodState (l.foldl applyOp st) := by
    intro l
    induction l with
    | nil => exact fun st h => h
    | cons op l ih =>
      intro st h
      exact ih (applyOp st op) (goodState_applyOp st op h)
  exact key ops ⟨[], []⟩ goodState_init

/-- C5: for every reachable orchestrator state — an arbitrary operation
sequence run from the empty state — (a) every paragraph's index equals its
position in the list (zero-based, gapless, assigned in creation order);
(b) submission assigns index = current paragraph count and an absent
`formatted`; (c) no operation ever modifies the `raw` text of an existing
paragraph; (d) a completion fires at most once per index (its pending entry is
removed when first observed, so re-observing is a no-op); (e) a retry never
overwrites a `formatted` that is already present; (f) a successful completion
of a pending index sets exactly that paragraph's `formatted`. -/
theorem C5_paragraph_invariants :
    (∀ (ops : List PipelineOp) (k : Nat) (p : Paragraph),
      (runOps ops).paragraphs[k]? = some p → p.index = k) ∧
    (∀ (st : PipeState) (raw : Str),
      (applyOp st (.submit raw)).paragraphs =
        st.paragraphs ++ [⟨st.paragraphs.length, raw, none⟩]) ∧
    (∀ (st : PipeState) (op : PipelineOp) (j : Nat) (p : Paragraph),
      st.paragraphs[j]? = some p →
      ((applyOp st op).paragraphs[j]?).map Paragraph.raw = some p.raw) ∧
    (∀ (ops : List PipelineOp) (idx : Nat) (r r' : Option Str),
      applyOp (applyOp (runOps ops) (.complete idx r)) (.complete idx r') =
        applyOp (runOps ops) (.complete idx r)) ∧
    (∀ (st : PipeState) (idx : Nat) (r : Option Str) (j : Nat) (p : Paragraph),
      st.paragraphs[j]? = some p → p.formatted ≠ none →
      (applyOp st (.retryOne idx r)).paragraphs[j]? = some p) ∧
    (∀ (st : PipeState) (idx : Nat) (v : Str), idx ∈ st.pending →
      (applyOp st (.complete idx (some v))).paragraphs[idx]? =
        (st.paragraphs[idx]?).map fun p => { p with formatted := some v }) := by
  refine ⟨?_, ?_, ?_, ?_, ?_, ?_⟩
  · intro ops k p hk
    exact (runOps_goodState ops).1 k p hk
  · intro st raw
    rfl
  · intro st op j p hj
    have hjlt : j < st.paragraphs.length := (List.getElem?_eq_some_iff.1 hj).1
    cases op with
    | submit raw =>
      rw [applyOp_submit]
      simp only
      rw [List.getElem?_append_left hjlt, hj]
      rfl
    | complete idx r =>
      by_cases hp : idx ∈ st.pending
      · rw [applyOp_complete_pending st idx r hp]
        cases r with
        | none =>
          simp only [applyCompletion]
          rw [hj]
          rfl
        | some v =>
          simp only [applyCompletion, setFormatted_getElem?]
          by_cases hji : j = idx
          · rw [if_pos hji, hj]
            rfl
          · rw [if_neg hji, hj]
            rfl
      · rw [applyOp_complete_not_pending st idx r hp, hj]
        rfl
    | retryOne idx r =>
      by_cases hg : (st.paragraphs[idx]?).bind Paragraph.formatted = none
      · cases r with
        | none =>
          rw [applyOp_retry_fail st idx hg, hj]
          rfl
        | some v =>
          rw [applyOp_retry_success st idx v hg]
          simp only [setFormatted_getElem?]
          by_cases hji : j = idx
          · rw [if_pos hji, hj]
            rfl
          · rw [if_neg hji, hj]
            rfl
      · rw [applyOp_retry_formatted st idx r hg, hj]
        rfl
  · intro ops idx r r'
    by_cases hp : idx ∈ (runOps ops).pending
    · have hnotin : idx ∉ (applyOp (runOps ops) (.complete idx r)).pending := by
        rw [applyOp_complete_pending _ idx r hp]
        exact ((runOps_goodState ops).2.1).not_mem_erase
      exact applyOp_complete_not_pending _ idx r' hnotin
    · have hst := applyOp_complete_not_pending (runOps ops) idx r hp
      rw [hst, applyOp_complete_not_pending (runOps ops) idx r' hp]
  · intro st idx r j p hj hform
    by_cases hg : (st.paragraphs[idx]?).bind Paragraph.formatted = none
    · cases r with
      | none =>
        rw [applyOp_retry_fail st idx hg]
        exact hj
      | some v =>
        rw [applyOp_retry_success st idx v hg]
        simp only [setFormatted_getElem?]
        by_cases hji : j = idx
        · subst hji
          rw [hj] at hg
          exact absurd (by simpa using hg) hform
        · rw [if_neg hji]
          exact hj
    · rw [applyOp_retry_formatted st idx r hg]
      exact hj
  · intro st idx v hp
    rw [applyOp_complete_pending st idx (some v) hp]
    simp only [applyCompletion]
    rw [setFormatted_getElem?, if_pos rfl]

/-- Witness for C5: submitting two paragraphs then completing the first;
the invariants instantiated at that concrete reachable state. -/
theorem C5_paragraph_invariants_witness :
    ((runOps [.submit "a".data, .submit "b".data,
        .complete 0 (some "A".data)]).paragraphs[1]? =
        some ⟨1, "b".data, none⟩ → Paragraph.index ⟨1, "b".data, none⟩ = 1) ∧
    ((applyOp ⟨[⟨0, "a".data, none⟩], [0]⟩ (.submit "b".data)).paragraphs =
      [⟨0, "a".data, none⟩] ++ [⟨1, "b".data, none⟩]) ∧
    ((applyOp ⟨[⟨0, "a".data, none⟩], [0]⟩
        (.complete 0 (some "A".data))).paragraphs[0]?.map Paragraph.raw =
      some (Paragraph.raw ⟨0, "a".data, none⟩)) ∧
    (applyOp (applyOp (runOps [.submit "a".data]) (.complete 0 (some "A".data)))
        (.complete 0 (some "Z".data)) =
      applyOp (runOps [.submit "a".data]) (.complete 0 (some "A".data))) ∧
    ((applyOp ⟨[⟨0, "a".data, some "A".data⟩], []⟩
        (.retryOne 0 (some "Z".data))).paragraphs[0]? =
      some ⟨0, "a".data, some "A".data⟩) ∧
    ((applyOp ⟨[⟨0, "a".data, none⟩], [0]⟩
        (.complete 0 (some "A".data))).paragraphs[0]? =
      ([(⟨0, "a".data, none⟩ : Paragraph)][0]?).map
        fun p => { p with formatted := some "A".data }) := by
  obtain ⟨h1, h2, h3, h4, h5, h6⟩ := C5_paragraph_invariants
  refine ⟨?_, h2 ⟨[⟨0, "a".data, none⟩], [0]⟩ "b".data, ?_, ?_, ?_, ?_⟩
  · intro hk
    exact h1 [.submit "a".data, .submit "b".data, .complete 0 (some "A".data)]
      1 ⟨1, "b".data, none⟩ hk
  · exact h3 ⟨[⟨0, "a".data, none⟩], [0]⟩ (.complete 0 (some "A".data)) 0
      ⟨0, "a".data, none⟩ (by decide)
  · exact h4 [.submit "a".data] 0 (some "A".data) (some "Z".data)
  · exact h5 ⟨[⟨0, "a".data, some "A".data⟩], []⟩ 0 (some "Z".data) 0
      ⟨0, "a".data, some "A".data⟩ (by decide) (by decide)
  · exact h6 ⟨[⟨0, "a".data, none⟩], [0]⟩ 0 "A".data (by decide)

/-! ## Structure Analyzer reply parsing (`_generate_section_headers`,
transcriber.py:155-192) -/

/-- Python's `in` on strings: does `needle` occur as a contiguous substring of
the second argument? -/
def containsSub (needle : Str) : Str → Bool
  | [] => needle.isEmpty
  | c :: rest => needle.isPrefixOf (c :: rest) || containsSub needle rest

/-- Python `line.split(sep, 1)` for a single-character separator: the text
before the first occurrence and the text after it; `none` when the separator
does not occur. -/
def splitOnceChar (sep : Char) : Str → Option (Str × Str)
  | [] => none
  | c :: rest =>
    if c = sep then some ([], rest)
    else (splitOnceChar sep rest).map (fun q => (c :: q.1, q.2))

/-- Python `text.split(sep)` for a single-character separator. -/
def splitOnChar (sep : Char) : Str → List Str
  | [] => [[]]
  | c :: rest =>
    if c = sep then [] :: splitOnChar sep rest
    else
      match splitOnChar sep rest with
      | [] => [[c]]
      | g :: gs => (c :: g) :: gs

/-- Python `s.replace(old, "")` for a non-empty `old` (the code removes the
literal `"段落"`), by fuel recursion on the string length. -/
def removeSub (needle : Str) (s : Str) : Str := go s.length s
where
  go : Nat → Str → Str
  | _, [] => []
  | 0, s => s
  | fuel + 1, c :: rest =>
    if needle ≠ [] ∧ needle.isPrefixOf (c :: rest) then
      go fuel ((c :: rest).drop needle.length)
    else c :: go fuel rest

/-- Parse a non-empty all-ASCII-digit string as a natural number. -/
def natDigits? (s : Str) : Option Nat :=
  if s = [] then none else go s 0
where
  go : Str → Nat → Option Nat
  | [], acc => some acc
  | c :: rest, acc =>
    if c.isDigit then go rest (acc * 10 + (c.toNat - '0'.toNat)) else none

/-- Model of Python `int(...)` on the stripped index field: an optional sign
followed by ASCII digits, `none` (a `ValueError`) otherwise.  (Python's `int`
additionally accepts underscore digit separators and non-ASCII digits; those
play no role in the parsing behaviour the spec describes.) -/
def pyInt? : Str → Option Int
  | '-' :: rest => (natDigits? rest).map (fun n => -(n : Int))
  | '+' :: rest => (natDigits? rest).map (fun n => (n : Int))
  | s => (natDigits? s).map (fun n => (n : Int))

/-- Parse one line of the structuring reply (transcriber.py:176-190): strip
the line; discard it when empty or when it contains neither `:` nor `：`;
choose the full-width colon as separator when present, else the ASCII colon;
split once; parse the first field (with the literal `"段落"` removed, then
stripped) as a 1-based integer and convert to 0-based; strip the second field
as the title; accept only when the 0-based index is within the paragraph
range and the title is non-empty. -/
def lineHeader (n : Nat) (line0 : Str) : Option (Nat × Str) :=
  let line := pyStrip line0
  if line = [] then none
  else if ¬ containsSub [':'] line ∧ ¬ containsSub ['：'] line then none
  else
    let sep : Char := if containsSub ['：'] line then '：' else ':'
    match splitOnceChar sep line with
    | none => none
    | some q =>
      match pyInt? (pyStrip (removeSub "段落".data q.1)) with
      | none => none
      | some k =>
        let title := pyStrip q.2
        if 0 ≤ k - 1 ∧ k - 1 < (n : Int) ∧ title ≠ [] then
          some ((k - 1).toNat, title)
        else none

/-- Fold one reply line into the headers mapping
(`headers[idx] = title`; a later line for the same index overwrites). -/
def headerStep (n : Nat) (m : Nat → Option Str) (line : Str) : Nat → Option Str :=
  match lineHeader n line with
  | some q => fun j => if j = q.1 then some q.2 else m j
  | none => m

/-- The reply parsing of `_generate_section_headers` (transcriber.py:174-192):
split the stripped reply on newlines and fold every line into the headers
dict, starting empty. -/
def parseHeaders (n : Nat) (reply : Str) : Nat → Option Str :=
  (splitOnChar '\n' (pyStrip reply)).foldl (headerStep n) (fun _ => none)

/-- C7: every reply line is parsed as a 1-based `paragraphIndex:title` pair
converted to 0-based, accepting the ASCII or the full-width colon; a line
with neither separator, a non-integer index, an out-of-range index, or an
empty title is silently discarded without affecting the other lines — removing
any discarded line from the reply leaves the parsed mapping unchanged, the
line `"foo"` is discarded, and an adjacent `"2:Intro"` still yields the
heading `"Intro"` for the paragraph at 0-based index 1. -/
theorem C7_structure_parsing (n : Nat) (m0 : Nat → Option Str)
    (pre post : List Str) (line : Str) (hline : lineHeader n line = none) :
    ((pre ++ line :: post).foldl (headerStep n) m0 =
      (pre ++ post).foldl (headerStep n) m0) ∧
    (lineHeader 3 "foo".data = none ∧
      lineHeader 3 "2:Intro".data = some (1, "Intro".data) ∧
      lineHeader 3 "2：Intro".data = some (1, "Intro".data) ∧
      lineHeader 3 "段落2:Intro".data = some (1, "Intro".data) ∧
      lineHeader 3 "x:T".data = none ∧
      lineHeader 2 "5:T".data = none ∧
      lineHeader 3 "0:T".data = none ∧
      lineHeader 3 "2:".data = none ∧
      parseHeaders 2 "foo\n2:Intro".data 1 = some "Intro".data ∧
      parseHeaders 2 "foo\n2:Intro".data 0 = none) := by
  constructor
  · rw [List.foldl_append, List.foldl_append, List.foldl_cons]
    have hskip : headerStep n (pre.foldl (headerStep n) m0) line =
        pre.foldl (headerStep n) m0 := by
      simp only [headerStep, hline]
    rw [hskip]
  · refine ⟨?_, ?_, ?_, ?_, ?_, ?_, ?_, ?_, ?_, ?_⟩ <;> decide

/-- Witness for C7: the discarded line `"junk"` between two valid lines. -/
theorem C7_structure_parsing_witness :
    ((["1:A".data] ++ "junk".data :: ["2:B".data]).foldl (headerStep 5)
        (fun _ => none) =
      (["1:A".data] ++ ["2:B".data]).foldl (headerStep 5) (fun _ => none)) ∧
    (lineHeader 3 "foo".data = none ∧
      lineHeader 3 "2:Intro".data = some (1, "Intro".data) ∧
      lineHeader 3 "2：Intro".data = some (1, "Intro".data) ∧
      lineHeader 3 "段落2:Intro".data = some (1, "Intro".data) ∧
      lineHeader 3 "x:T".data = none ∧
      lineHeader 2 "5:T".data = none ∧
      lineHeader 3 "0:T".data = none ∧
      lineHeader 3 "2:".data = none ∧
      parseHeaders 2 "foo\n2:Intro".data 1 = some "Intro".data ∧
      parseHeaders 2 "foo\n2:Intro".data 0 = none) :=
  C7_structure_parsing 5 (fun _ => none) ["1:A".data] ["2:B".data]
    "junk".data (by decide)

/-! ## Structure Analyzer gating (transcriber.py:160-161 and 429-442) -/

/-- `_generate_section_headers` with the single remote call abstracted:
`callReply` is the outcome of the one `_call_llm` invocation (`none` = the
call raised; the orchestrator catches that exception and keeps the headers
empty).  The second component counts the remote calls issued: zero when the
function returns early on fewer than 3 paragraphs (transcriber.py:160-161),
one otherwise. -/
def generateSectionHeaders (callReply : Option Str) (ps : List Paragraph) :
    (Nat → Option Str) × Nat :=
  if ps.length < 3 then (fun _ => none, 0)
  else
    match callReply with
    | some reply => (parseHeaders ps.length reply, 1)
    | none => (fun _ => none, 1)

/-- The orchestrator's structure stage (transcriber.py:429-442): the structure
analyzer is entered only when `len(paragraphs) >= 3`; otherwise no call is
made and no headers are produced. -/
def structureStage (callReply : Option Str) (ps : List Paragraph) :
    (Nat → Option Str) × Nat :=
  if ps.length ≥ 3 then generateSectionHeaders callReply ps
  else (fun _ => none, 0)

/-- C8: the structure analyzer's remote call is issued exactly once per
pipeline run when the finalized paragraph count is at least 3 and never
otherwise — in particular, at most once; with 2 or fewer paragraphs neither
the orchestrator gate nor the function's own early return lets a call happen
and no chapter headers are produced. -/
theorem C8_structure_gating (callReply : Option Str) (ps : List Paragraph) :
    ((structureStage callReply ps).2 = if 3 ≤ ps.length then 1 else 0) ∧
    ((generateSectionHeaders callReply ps).2 = if 3 ≤ ps.length then 1 else 0) ∧
    ((structureStage callReply ps).2 ≤ 1) ∧
    (ps.length < 3 →
      (structureStage callReply ps).2 = 0 ∧
      ∀ j, (structureStage callReply ps).1 j = none) := by
  by_cases h : 3 ≤ ps.length
  · have hlt : ¬ ps.length < 3 := by omega
    refine ⟨?_, ?_, ?_, ?_⟩
    · simp only [structureStage, generateSectionHeaders, if_pos h, if_neg hlt]
      cases callReply <;> simp [h]
    · simp only [generateSectionHeaders, if_neg hlt]
      cases callReply <;> simp [h]
    · simp only [structureStage, generateSectionHeaders, if_pos h, if_neg hlt]
      cases callReply <;> simp
    · intro hcon
      exact absurd hcon hlt
  · have hlt : ps.length < 3 := by omega
    refine ⟨?_, ?_, ?_, ?_⟩
    · simp [structureStage, h]
    · simp [generateSectionHeaders, hlt, h]
    · simp [structureStage, h]
    · intro _
      exact ⟨by simp [structureStage, h], fun j => by simp [structureStage, h]⟩

/-- Witness for C8: with exactly 2 finalized paragraphs no call is made and
no headers exist; with 3 the call count is 1. -/
theorem C8_structure_gating_witness :
    ((structureStage (some "1:T".data)
        [⟨0, "a".data, none⟩, ⟨1, "b".data, none⟩]).2 =
      if 3 ≤ [(⟨0, "a".data, none⟩ : Paragraph), ⟨1, "b".data, none⟩].length
      then 1 else 0) ∧
    ((structureStage (some "1:T".data)
        [⟨0, "a".data, none⟩, ⟨1, "b".data, none⟩]).2 = 0 ∧
      ∀ j, (structureStage (some "1:T".data)
        [⟨0, "a".data, none⟩, ⟨1, "b".data, none⟩]).1 j = none) ∧
    ((structureStage (some "1:T".data)
        [⟨0, "a".data, none⟩, ⟨1, "b".data, none⟩,
          ⟨2, "c".data, none⟩]).2 =
      if 3 ≤ [(⟨0, "a".data, none⟩ : Paragraph), ⟨1, "b".data, none⟩,
          ⟨2, "c".data, none⟩].length then 1 else 0) := by
  obtain ⟨h1, _, _, h4⟩ :=
    C8_structure_gating (some "1:T".data)
      [⟨0, "a".data, none⟩, ⟨1, "b".data, none⟩]
  obtain ⟨g1, _, _, _⟩ :=
    C8_structure_gating (some "1:T".data)
      [⟨0, "a".data, none⟩, ⟨1, "b".data, none⟩, ⟨2, "c".data, none⟩]
  exact ⟨h1, h4 (by decide), g1⟩

/-! ## Remote-call retry policy (`_call_llm`, transcriber.py:125-152) -/

/-- Python `str.lower()` (`Char.toLower`; the classification keywords are
ASCII). -/
def pyLower (s : Str) : Str := s.map Char.toLower

/-- The network-class test of transcriber.py:146:
`"connect" in str(e).lower() or "timeout" in str(e).lower()`. -/
def isNetworkError (msg : Str) : Bool :=
  containsSub "connect".data (pyLower msg) ||
    containsSub "timeout".data (pyLower msg)

/-- `max_retries = 5` (transcriber.py:130). -/
def maxRetries : Nat := 5

/-- The backoff before retrying failed attempt `attempt`
(transcriber.py:147): `attempt * 10` seconds for a network-class failure,
`attempt * 5` for any other failure. -/
def backoffWait (attempt : Nat) (msg : Str) : Nat :=
  if isNetworkError msg then attempt * 10 else attempt * 5

/-- The retry loop of `_call_llm` for one unit of work.  `oracle k` is the
outcome of the `k`-th request (`Except.error e` = the request raised, with
`e = str(e)`).  `remaining` counts the attempts still allowed
(`max_retries − attempt + 1` at entry).  A success returns the stripped
reply at once; a failure on a non-final attempt sleeps `backoffWait` and
retries; a failure on the final attempt resolves the unit to that failure
(the `raise` at transcriber.py:152).  The second component records the waits
taken, in order. -/
def callLlmGo (oracle : Nat → Except Str Str) :
    Nat → Nat → Except Str Str × List Nat
  | 0, _ => (.error [], [])
  | remaining + 1, attempt =>
    match oracle attempt with
    | .ok s => (.ok (pyStrip s), [])
    | .error e =>
      if remaining = 0 then (.error e, [])
      else
        ((callLlmGo oracle remaining (attempt + 1)).1,
          backoffWait attempt e ::
            (callLlmGo oracle remaining (attempt + 1)).2)

/-- `_call_llm`: `for attempt in range(1, max_retries + 1)`. -/
def callLlm (oracle : Nat → Except Str Str) : Except Str Str × List Nat :=
  callLlmGo oracle maxRetries 1

theorem callLlmGo_congr (o o' : Nat → Except Str Str) :
    ∀ (r a : Nat), (∀ k, a ≤ k → k < a + r → o k = o' k) →
      callLlmGo o r a = callLlmGo o' r a := by
  intro r
  induction r with
  | zero => intro a _; rfl
  | succ r ih =>
    intro a h
    have ha : o a = o' a := h a (Nat.le_refl a) (by omega)
    simp only [callLlmGo, ha]
    cases o' a with
    | ok s => rfl
    | error e =>
      dsimp only
      by_cases hr : r = 0
      · subst hr
        rfl
      · rw [if_neg hr, if_neg hr,
          ih (a + 1) (fun k hk1 hk2 => h k (by omega) (by omega))]

theorem callLlmGo_error_iff (o : Nat → Except Str Str) :
    ∀ (r a : Nat), 0 < r →
      ((∃ e, (callLlmGo o r a).1 = .error e) ↔
        ∀ k, a ≤ k → k < a + r → ∃ e, o k = .error e) := by
  intro r
  induction r with
  | zero => intro a h; exact absurd h (lt_irrefl 0)
  | succ r ih =>
    intro a _
    simp only [callLlmGo]
    cases ho : o a with
    | ok s =>
      constructor
      · rintro ⟨e, he⟩
        exact absurd he (by simp)
      · intro h
        obtain ⟨e, he⟩ := h a (Nat.le_refl a) (by omega)
        rw [ho] at he
        cases he
    | error e =>
      dsimp only
      by_cases hr : r = 0
      · subst hr
        constructor
        · intro _ k hk1 hk2
          have hka : k = a := by omega
          subst hka
          exact ⟨e, ho⟩
        · intro _
          exact ⟨e, rfl⟩
      · rw [if_neg hr]
        have hih := ih (a + 1) (Nat.pos_of_ne_zero hr)
        constructor
        · rintro ⟨e', he'⟩ k hk1 hk2
          rcases Nat.eq_or_lt_of_le hk1 with rfl | hlt
          · exact ⟨e, ho⟩
          · exact hih.1 ⟨e', he'⟩ k (by omega) (by omega)
        · intro h
          obtain ⟨e', he'⟩ :=
            hih.2 (fun k hk1 hk2 => h k (by omega) (by omega))
          exact ⟨e', he'⟩

/-- C9: a formatting call attempts the request at most `max_retries = 5`
times (its outcome depends only on attempts 1..5); for every non-final
attempt number, the backoff before retrying is strictly longer when the
failure message is network-class (contains "connect" or "timeout",
case-insensitively) than when it is not; the call resolves to a failure
exactly when all five attempts fail; and the wait actually taken after a
failed first attempt is `backoffWait` of its message. -/
theorem C9_retry_policy (oracle : Nat → Except Str Str) :
    (∀ oracle' : Nat → Except Str Str,
      (∀ k, 1 ≤ k → k ≤ maxRetries → oracle k = oracle' k) →
      callLlm oracle = callLlm oracle') ∧
    (∀ (k : Nat) (e e' : Str), 1 ≤ k → k < maxRetries →
      isNetworkError e = true → isNetworkError e' = false →
      backoffWait k e' < backoffWait k e) ∧
    ((∃ e, (callLlm oracle).1 = .error e) ↔
      ∀ k, 1 ≤ k → k ≤ maxRetries → ∃ e, oracle k = .error e) ∧
    (∀ e : Str, oracle 1 = .error e →
      (callLlm oracle).2.head? = some (backoffWait 1 e)) := by
  refine ⟨?_, ?_, ?_, ?_⟩
  · intro oracle' h
    exact callLlmGo_congr oracle oracle' maxRetries 1
      (fun k hk1 hk2 => h k hk1 (by simp only [maxRetries] at hk2 ⊢; omega))
  · intro k e e' hk1 _ hnet hother
    simp [backoffWait, hnet, hother]
    omega
  · have key := callLlmGo_error_iff oracle maxRetries 1 (by norm_num [maxRetries])
    constructor
    · intro h k hk1 hk2
      exact key.1 h k hk1 (by simp only [maxRetries] at hk2 ⊢; omega)
    · intro h
      exact key.2 (fun k hk1 hk2 =>
        h k hk1 (by simp only [maxRetries] at hk2 ⊢; omega))
  · intro e he
    simp [callLlm, maxRetries, callLlmGo, he]

/-- Witness for C9: an oracle whose first attempt fails with a timeout and
whose later attempts succeed. -/
theorem C9_retry_policy_witness :
    (callLlm (fun k => if k = 1 then .error "timeout x".data
        else .ok "ok".data) =
      callLlm (fun k => if k = 1 then .error "timeout x".data
        else .ok "ok".data)) ∧
    (backoffWait 1 "boom".data < backoffWait 1 "timeout x".data) ∧
    ((callLlm (fun k => if k = 1 then .error "timeout x".data
        else .ok "ok".data)).2.head? =
      some (backoffWait 1 "timeout x".data)) := by
  obtain ⟨h1, h2, _, h4⟩ :=
    C9_retry_policy (fun k => if k = 1 then .error "timeout x".data
      else .ok "ok".data)
  exact ⟨h1 _ (fun k _ _ => rfl), h2 1 "timeout x".data "boom".data
    (by decide) (by decide) (by decide) (by decide), h4 "timeout x".data rfl⟩

/-! ## Long-text chunking (`_split_text`, transcriber.py:80-111) -/

/-- `CHUNK_SIZE = 8000` (transcriber.py:20), the default `chunk_size`. -/
def CHUNK_SIZE : Nat := 8000

/-- The sentence-boundary characters searched by `_split_text`
(transcriber.py:97); every separator is a single code point. -/
def sepChars : List Char := ['。', '？', '！', '.', '?', '!', '；', '\n']

/-- Scan of `text.rfind(sep, start, stop)`: walk the text keeping the last
index in `[start, stop)` holding `sep`. -/
def rfindGo (c : Char) (start stop : Nat) : List Char → Nat → Int → Int
  | [], _, best => best
  | x :: rest, i, best =>
    rfindGo c start stop rest (i + 1)
      (if start ≤ i ∧ i < stop ∧ x = c then (i : Int) else best)

/-- Python `text.rfind(sep, start, stop)` for a single character: the largest
index `i` with `start ≤ i < stop` and `text[i] = sep`, or `-1`. -/
def rfindChar (text : List Char) (c : Char) (start stop : Nat) : Int :=
  rfindGo c start stop text 0 (-1)

/-- `split_pos`: the maximum of the `rfind` results over all separators
(transcriber.py:96-100, the `if pos > split_pos` fold, starting at `-1`). -/
def splitPos (text : List Char) (start stop : Nat) : Int :=
  sepChars.foldl (fun best c => max best (rfindChar text c start stop)) (-1)

/-- Python slice `text[a:b]` for `a ≤ b` (clamped at the text's end). -/
def pySlice (text : List Char) (a b : Nat) : List Char :=
  (text.drop a).take (b - a)

/-- The `while start < len(text)` loop of `_split_text`
(transcriber.py:88-109): if the rest fits, emit it and stop; otherwise cut at
`split_pos + 1` when a boundary strictly after `start` was found in
`[start, start + chunk_size)`, else hard-cut at exactly `chunk_size`.  The
fuel argument bounds the iteration count; `len(text)` is always enough when
`chunk_size ≥ 1` because `start` strictly increases. -/
def splitTextGo (text : List Char) (chunkSize : Nat) :
    Nat → Nat → List (List Char)
  | 0, _ => []
  | fuel + 1, start =>
    if start < text.length then
      if start + chunkSize ≥ text.length then [text.drop start]
      else if splitPos text start (start + chunkSize) > (start : Int) then
        pySlice text start ((splitPos text start (start + chunkSize)).toNat + 1) ::
          splitTextGo text chunkSize fuel
            ((splitPos text start (start + chunkSize)).toNat + 1)
      else
        pySlice text start (start + chunkSize) ::
          splitTextGo text chunkSize fuel (start + chunkSize)
    else []

/-- `_split_text` (transcriber.py:80-111): a text no longer than `chunk_size`
is returned whole; otherwise the loop chops it into boundary-aligned or
hard-cut chunks. -/
def splitText (text : List Char) (chunkSize : Nat) : List (List Char) :=
  if text.length ≤ chunkSize then [text]
  else splitTextGo text chunkSize text.length 0

theorem rfindGo_lt (c : Char) (start stop : Nat) :
    ∀ (l : List Char) (i : Nat) (best : Int), best < (stop : Int) →
      rfindGo c start stop l i best < (stop : Int) := by
  intro l
  induction l with
  | nil => intro i best h; exact h
  | cons x rest ih =>
    intro i best h
    simp only [rfindGo]
    apply ih
    by_cases hc : start ≤ i ∧ i < stop ∧ x = c
    · rw [if_pos hc]
      exact_mod_cast hc.2.1
    · rw [if_neg hc]
      exact h

theorem rfindChar_lt (text : List Char) (c : Char) (start stop : Nat) :
    rfindChar text c start stop < (stop : Int) :=
  rfindGo_lt c start stop text 0 (-1) (by omega)

theorem splitPos_lt (text : List Char) (start stop : Nat) :
    splitPos text start stop < (stop : Int) := by
  unfold splitPos
  have key : ∀ (cs : List Char) (best : Int), best < (stop : Int) →
      cs.foldl (fun b c => max b (rfindChar text c start stop)) best <
        (stop : Int) := by
    intro cs
    induction cs with
    | nil => exact fun best h => h
    | cons c cs ih =>
      intro best h
      exact ih _ (max_lt h (rfindChar_lt text c start stop))
  exact key sepChars (-1) (by omega)

theorem pySlice_append_drop (text : List Char) (a b : Nat) (hab : a ≤ b) :
    pySlice text a b ++ text.drop b = text.drop a := by
  unfold pySlice
  have hdrop : text.drop b = (text.drop a).drop (b - a) := by
    rw [List.drop_drop]
    congr 1
    omega
  rw [hdrop, List.take_append_drop]

theorem pySlice_length_le (text : List Char) (a b : Nat) :
    (pySlice text a b).length ≤ b - a := by
  unfold pySlice
  simp [List.length_take]

theorem splitTextGo_spec (text : List Char) (chunkSize : Nat)
    (hcs : 1 ≤ chunkSize) :
    ∀ (fuel start : Nat), start < text.length → text.length - start ≤ fuel →
      (splitTextGo text chunkSize fuel start).flatten = text.drop start ∧
      ∀ chunk ∈ splitTextGo text chunkSize fuel start,
        chunk.length ≤ chunkSize := by
  intro fuel
  induction fuel with
  | zero => intro start hlt hfuel; omega
  | succ fuel ih =>
    intro start hlt hfuel
    by_cases hfit : start + chunkSize ≥ text.length
    · rw [show splitTextGo text chunkSize (fuel + 1) start = [text.drop start] by
        simp only [splitTextGo]
        rw [if_pos hlt, if_pos hfit]]
      constructor
      · simp
      · intro chunk hc
        rw [List.mem_singleton] at hc
        subst hc
        simp only [List.length_drop]
        omega
    · have hroom : start + chunkSize < text.length := by omega
      have hsp_lt : splitPos text start (start + chunkSize) <
          ((start + chunkSize : Nat) : Int) := splitPos_lt text start _
      by_cases hfound : splitPos text start (start + chunkSize) > (start : Int)
      · have hsp_nonneg : 0 ≤ splitPos text start (start + chunkSize) := by
          omega
        have htn : ((splitPos text start (start + chunkSize)).toNat : Int) =
            splitPos text start (start + chunkSize) :=
          Int.toNat_of_nonneg hsp_nonneg
        have hgt : start < (splitPos text start (start + chunkSize)).toNat := by
          omega
        have hle : (splitPos text start (start + chunkSize)).toNat <
            start + chunkSize := by
          omega
        have hnewlt : (splitPos text start (start + chunkSize)).toNat + 1 <
            text.length := by
          omega
        rw [show splitTextGo text chunkSize (fuel + 1) start =
            pySlice text start ((splitPos text start (start + chunkSize)).toNat + 1) ::
              splitTextGo text chunkSize fuel
                ((splitPos text start (start + chunkSize)).toNat + 1) by
          simp only [splitTextGo]
          rw [if_pos hlt, if_neg (by omega), if_pos hfound]]
        obtain ⟨ihflat, ihlen⟩ := ih ((splitPos text start (start + chunkSize)).toNat + 1)
          hnewlt (by omega)
        constructor
        · rw [List.flatten_cons, ihflat,
            pySlice_append_drop text start _ (by omega)]
        · intro chunk hc
          rcases List.mem_cons.1 hc with rfl | hmem
          · exact le_trans (pySlice_length_le text start _) (by omega)
          · exact ihlen chunk hmem
      · rw [show splitTextGo text chunkSize (fuel + 1) start =
            pySlice text start (start + chunkSize) ::
              splitTextGo text chunkSize fuel (start + chunkSize) by
          simp only [splitTextGo]
          rw [if_pos hlt, if_neg (by omega), if_neg hfound]]
        obtain ⟨ihflat, ihlen⟩ := ih (start + chunkSize) hroom (by omega)
        constructor
        · rw [List.flatten_cons, ihflat,
            pySlice_append_drop text start _ (by omega)]
        · intro chunk hc
          rcases List.mem_cons.1 hc with rfl | hmem
          · exact le_trans (pySlice_length_le text start _) (by omega)
          · exact ihlen chunk hmem

/-- C10: for every text and every `chunk_size ≥ 1`, concatenating the chunks
returned by `_split_text` in order recovers exactly the original text, and
every returned chunk has length at most `chunk_size`. -/
theorem C10_split_text_roundtrip (text : List Char) (chunkSize : Nat)
    (hcs : 1 ≤ chunkSize) :
    (splitText text chunkSize).flatten = text ∧
    ∀ chunk ∈ splitText text chunkSize, chunk.length ≤ chunkSize := by
  unfold splitText
  by_cases h : text.length ≤ chunkSize
  · rw [if_pos h]
    refine ⟨by simp, ?_⟩
    intro chunk hc
    rw [List.mem_singleton] at hc
    subst hc
    exact h
  · rw [if_neg h]
    have := splitTextGo_spec text chunkSize hcs text.length 0 (by omega) (by omega)
    simpa using this

/-- Witness for C10: `"ab.cd"` with `chunk_size = 3` splits at the sentence
boundary into `["ab.", "cd"]`, whose concatenation is the original text. -/
theorem C10_split_text_roundtrip_witness :
    (splitText "ab.cd".data 3).flatten = "ab.cd".data ∧
    ∀ chunk ∈ splitText "ab.cd".data 3, chunk.length ≤ 3 :=
  C10_split_text_roundtrip "ab.cd".data 3 (by decide)

end Yt2Text
